import Mathlib

/-!
Verification of the SSE fan-out broadcaster (`src/modules/sse/sseEventStructure.js`
and the client-side parser in `public/javascripts/sse-client.js`).

Shallow embedding conventions
- The module-level `clients` JS `Map` is a `List (MapKey × Entry)` in insertion
  order; `Map.set` replaces in place, `Map.delete` removes by key.  JS `Map`
  keys here are either strings or the value `undefined` (the controller can pass
  an `undefined` client id through), so keys are `Option String` with `none`
  standing for `undefined`.
- The `resIndex` JS `WeakMap` is a `List (Nat × MapKey)`: response objects are
  identified by a numeric handle id; values are the stored client ids.
  `WeakMap.get` on an absent key and on a key whose stored value is `undefined`
  both observably return `undefined`, which `joinGet` reproduces.
- A response object (`res`) is a `Handle` in a heap `List (Nat × Handle)`.
  Its behaviour under the operations the module performs is captured by flags:
  `writableEnded` (the stream has ended), `writeFails` (`res.write` throws),
  `endThrows` (`res.end()` throws), `readEndedThrows` (reading the
  `res.writableEnded` property itself throws, the "corrupt record" case the
  pruning pass defends against), plus the list of strings successfully written.
- JS payloads are abstracted by how `JSON.stringify` behaves on them:
  it returns a string, returns `undefined` (e.g. for `undefined` or a bare
  function), or throws (e.g. a cyclic structure).
- Functions in which every JS throw-site sits inside a `try`/`catch` are total
  Lean functions.  Functions with an uncaught throw-site (`sendToClient` and
  `send` read `res.writableEnded` outside any `try`, and `broadcastAndClose`
  does so as well) return `Except SSEState ...`, `Except.error s` meaning the
  JS call raised with the module state mutated to `s` so far.
-/

namespace SSE

/-- Keys of the `clients` Map: a string id or the JS value `undefined`. -/
abbrev MapKey := Option String

/-- Assoc-list lookup, modelling `Map.get` / `WeakMap.get` (first match). -/
def assocGet {κ α : Type} [DecidableEq κ] (k : κ) : List (κ × α) → Option α
  | [] => none
  | kv :: rest => if kv.1 = k then some kv.2 else assocGet k rest

/-- Assoc-list insert, modelling `Map.set` / `WeakMap.set`: replace the value in
place when the key is present, otherwise append at the end (JS Maps preserve
insertion order). -/
def assocSet {κ α : Type} [DecidableEq κ] (k : κ) (v : α) : List (κ × α) → List (κ × α)
  | [] => [(k, v)]
  | kv :: rest => if kv.1 = k then (k, v) :: rest else kv :: assocSet k v rest

/-- Assoc-list delete, modelling `Map.delete` / `WeakMap.delete`. -/
def assocDelete {κ α : Type} [DecidableEq κ] (k : κ) : List (κ × α) → List (κ × α)
  | [] => []
  | kv :: rest => if kv.1 = k then assocDelete k rest else kv :: assocDelete k rest

/-- JS truthiness of a string-or-undefined value (`undefined` and `""` are
falsy), as used by `if (existing && ...)` and `if (clientId)` in the source. -/
def truthy : Option String → Bool
  | none => false
  | some s => decide (s ≠ "")

/-! ## Message codec (`safeSerialize`, `formatSSEMessage`) -/

/-- The three observable behaviours of `JSON.stringify` on a value. -/
inductive StringifyOutcome : Type where
  | str (s : String)
  | undef
  | throws
  deriving DecidableEq, Repr

/-- A payload, abstracted by the behaviour of `JSON.stringify` on it:
`serializable s` encodes to the string `s`; `undef` makes `JSON.stringify`
return `undefined` without throwing (e.g. the value `undefined` or a bare
function); `cyclic` makes it throw (e.g. a self-referential structure). -/
inductive Payload : Type where
  | serializable (json : String)
  | undef
  | cyclic
  deriving DecidableEq, Repr

/-- Behaviour of `JSON.stringify` on a payload. -/
def jsonStringify : Payload → StringifyOutcome
  | .serializable s => .str s
  | .undef => .undef
  | .cyclic => .throws

/-- The JSON text of the fixed fallback object used on serialization failure. -/
def fallbackJson : String := "\x7b\"error\":\"unserializable payload\"\x7d"

/-- Embedding of `safeSerialize(data)`: `try { return JSON.stringify(data) }
catch { return JSON.stringify({ error: "unserializable payload" }) }`.  The
result is a JS value that is either a string or `undefined` (`none`): the
fallback branch runs only when `JSON.stringify` throws, not when it returns
`undefined`. -/
def safeSerialize (p : Payload) : Option String :=
  match jsonStringify p with
  | .str s => some s
  | .undef => none
  | .throws => some fallbackJson

/-- Template-literal coercion of a string-or-undefined value, as in
`` `data: ${safeSerialize(payload)}\n\n` ``: `undefined` prints as the text
`undefined`. -/
def templateCoerce : Option String → String
  | some s => s
  | none => "undefined"

/-- Embedding of `formatSSEMessage(payload)`. -/
def formatSSEMessage (p : Payload) : String :=
  "data: " ++ templateCoerce (safeSerialize p) ++ "\n\n"

/-! ## Client-side payload parser (`parseSSEData` in `sse-client.js`) -/

/-- Shape of a decoded JSON value, as far as `parseSSEData` inspects it
(`typeof` and null-ness); `obj`/`arr` carry a tag so that the parsed payload
is observably carried through. -/
inductive JsonValue : Type where
  | obj (tag : Nat)
  | arr (tag : Nat)
  | str (s : String)
  | num (n : Int)
  | boolv (b : Bool)
  | nullv
  deriving DecidableEq, Repr

/-- Outcome of `JSON.parse` on the event's `data` text: the parser only ever
looks at the message text through this outcome. -/
inductive ParseOutcome : Type where
  | throws
  | value (v : JsonValue)
  deriving DecidableEq, Repr

/-- Whether `typeof v === "object"` in JS (arrays and `null` included). -/
def typeofIsObject : JsonValue → Bool
  | .obj _ => true
  | .arr _ => true
  | .nullv => true
  | _ => false

/-- Result record of `parseSSEData`: a `status` string and a payload that is
`null` (`none`) on failure. -/
structure ParseSSEResult : Type where
  status : String
  payload : Option JsonValue
  deriving DecidableEq, Repr

/-- Embedding of `parseSSEData(event)`: JSON-decode the message text; if the
decode throws, or the decoded value is not a non-null object, return
`{ status: "invalid", payload: null }`; otherwise `{ status: "ok", payload }`.
All throw-sites are inside the `try`, so the function is total: the raw
exception is never propagated. -/
def parseSSEData : ParseOutcome → ParseSSEResult
  | .throws => ⟨"invalid", none⟩
  | .value v =>
      if typeofIsObject v = false ∨ v = .nullv then ⟨"invalid", none⟩
      else ⟨"ok", some v⟩

/-! ## Registry state -/

/-- Normalized client metadata (`standardizeMeta` in `addClient`): every field
is `null` (`none`) or a string; `meta.ip || null` turns a falsy field (absent
or the empty string) into `null`. -/
structure Meta : Type where
  ip : Option String
  userId : Option String
  userAgent : Option String
  deriving DecidableEq, Repr

/-- Field normalization `x || null` for string-or-undefined fields. -/
def normField : Option String → Option String
  | none => none
  | some s => if s = "" then none else some s

/-- Embedding of `standardizeMeta(meta = {})` in `addClient`. -/
def standardizeMeta : Option Meta → Meta
  | none => ⟨none, none, none⟩
  | some m => ⟨normField m.ip, normField m.userId, normField m.userAgent⟩

/-- A response object (one SSE stream), identified in the heap by a `Nat`.
Flags describe its behaviour under the operations the module performs. -/
structure Handle : Type where
  writableEnded : Bool
  writeFails : Bool
  endThrows : Bool
  readEndedThrows : Bool
  written : List String
  deriving DecidableEq, Repr

/-- One registry entry: `{ res, meta, createdAt }`.  `res` is `none` when the
stored reference is `undefined` (the spec's "lacks a usable handle
reference"). -/
structure Entry : Type where
  res : Option Nat
  meta : Meta
  createdAt : Nat
  deriving DecidableEq, Repr

/-- The module state: the `clients` Map, the `resIndex` WeakMap and the heap of
response objects. -/
structure SSEState : Type where
  clients : List (MapKey × Entry)
  resIndex : List (Nat × MapKey)
  heap : List (Nat × Handle)
  deriving DecidableEq, Repr

/-- Embedding of `getClientCount()`. -/
def getClientCount (st : SSEState) : Nat :=
  st.clients.length

/-- `resIndex.get(res)` as observed by JS: an absent key and a stored
`undefined` value are indistinguishable (`undefined` either way). -/
def joinGet (st : SSEState) (rid : Nat) : Option String :=
  match assocGet rid st.resIndex with
  | none => none
  | some v => v

/-- Lookup of a handle in the heap. -/
def heapGet (st : SSEState) (rid : Nat) : Option Handle :=
  assocGet rid st.heap

/-- The list of strings successfully written to a response reference
(empty for `undefined` or unknown references). -/
def writtenOf (st : SSEState) (res : Option Nat) : List String :=
  match res with
  | none => []
  | some rid =>
      match heapGet st rid with
      | none => []
      | some h => h.written

/-! ## Write path (`writeToClient`, `send`) -/

/-- Embedding of `writeToClient(res, formattedMessage)`.  The whole body is one
`try`/`catch`, so every failure mode (reading `writableEnded` throws, the
stream has ended, `res.write` throws, `res` is `undefined` or unknown) yields
`false` without raising; on success the message is appended to the handle's
`written` log. -/
def writeToClient (st : SSEState) (res : Option Nat) (msg : String) : SSEState × Bool :=
  match res with
  | none => (st, false)
  | some rid =>
      match heapGet st rid with
      | none => (st, false)
      | some h =>
          if h.readEndedThrows then (st, false)
          else if h.writableEnded then (st, false)
          else if h.writeFails then (st, false)
          else ({ st with heap := assocSet rid { h with written := h.written ++ [msg] } st.heap },
                true)

/-- Whether a write attempt on this response reference would succeed, as a
function of the handle's flags only.  Agrees with the boolean returned by
`writeToClient` (proved below). -/
def writeOk (st : SSEState) (res : Option Nat) : Bool :=
  match res with
  | none => false
  | some rid =>
      match heapGet st rid with
      | none => false
      | some h => !h.readEndedThrows && !h.writableEnded && !h.writeFails

/-- Embedding of a bare `try { res.end() } catch { ... }` on a known response:
marks the stream ended unless `end()` itself throws. -/
def endAttempt (st : SSEState) (rid : Nat) : SSEState :=
  match heapGet st rid with
  | none => st
  | some h =>
      if h.endThrows then st
      else { st with heap := assocSet rid { h with writableEnded := true } st.heap }

/-- Embedding of `try { if (entry.res && !entry.res.writableEnded)
entry.res.end(); } catch { ... }` (and of the unguarded variant in
`removeClient`, whose read of `entry.res.writableEnded` on an `undefined`
reference throws and is caught). -/
def guardedEnd (st : SSEState) (res : Option Nat) : SSEState :=
  match res with
  | none => st
  | some rid =>
      match heapGet st rid with
      | none => st
      | some h =>
          if h.readEndedThrows then st
          else if h.writableEnded then st
          else endAttempt st rid

/-! ## Removal (`removeClientById`, `removeClient`) -/

/-- Embedding of `removeClientById(clientId)`: absent entry is an immediate
no-op; otherwise best-effort end of the response (all reads and the `end()`
call inside `try`), then deletion of the forward entry and, when the entry
holds a response reference, of the reverse entry. -/
def removeClientById (st : SSEState) (clientId : MapKey) : SSEState :=
  match assocGet clientId st.clients with
  | none => st
  | some entry =>
      let st1 := guardedEnd st entry.res
      let st2 := { st1 with clients := assocDelete clientId st1.clients }
      match entry.res with
      | none => st2
      | some rid => { st2 with resIndex := assocDelete rid st2.resIndex }

/-- Embedding of `removeClient(res)`: reverse-index lookup (`WeakMap.get` of a
non-object key returns `undefined`), truthiness check of the stored id, then
best-effort end and deletion of both mappings. -/
def removeClient (st : SSEState) (res : Option Nat) : SSEState :=
  match res with
  | none => st
  | some rid =>
      match joinGet st rid with
      | none => st
      | some s =>
          if s = "" then st
          else
            let st1 :=
              match assocGet (some s : MapKey) st.clients with
              | none => st
              | some entry => guardedEnd st entry.res
            let st2 := { st1 with clients := assocDelete (some s : MapKey) st1.clients }
            { st2 with resIndex := assocDelete rid st2.resIndex }

/-! ## Registration (`addClient`) -/

/-- The two call shapes of `addClient` the repository performs.  `resOnly rid`
is the backwards-compatible one-argument call `addClient(res)` (the second JS
argument is absent, hence falsy).  `withId v rid meta` is the preferred
three-argument call `addClient(clientId, res, meta)`; `v = none` is the call
with `clientId === undefined`, exactly what `sseSendTimeController.time` passes
when `req.sessionID` is absent (the second argument is the response object,
which is truthy, so the backwards-compatibility branch is not taken). -/
inductive AddArg : Type where
  | resOnly (rid : Nat)
  | withId (v : MapKey) (rid : Nat) (meta : Option Meta)
  deriving DecidableEq, Repr

/-- Embedding of `addClient(arg1, maybeRes, maybeMeta)`.  `now` is `Date.now()`
and `randHex` the hex expansion of `crypto.randomBytes(3)` consumed by the
generated-id branch.  The `res.once('close', ...)` attachment is wrapped in
`try`/`catch` in the source and does not change the registry, so it has no
footprint in the state. -/
def addClient (st : SSEState) (now : Nat) (randHex : String) (arg : AddArg) :
    SSEState × MapKey :=
  match arg with
  | .resOnly rid =>
      let clientId : MapKey := some ("anon-" ++ toString now ++ "-" ++ randHex)
      let st1 := { st with
        clients := assocSet clientId ⟨some rid, standardizeMeta none, now⟩ st.clients,
        resIndex := assocSet rid clientId st.resIndex }
      (st1, clientId)
  | .withId v rid meta =>
      let st1 :=
        match joinGet st rid with
        | none => st
        | some ex =>
            if ex ≠ "" ∧ (some ex : MapKey) ≠ v then
              { st with clients := assocDelete (some ex : MapKey) st.clients }
            else st
      let st2 := { st1 with
        clients := assocSet v ⟨some rid, standardizeMeta meta, now⟩ st1.clients,
        resIndex := assocSet rid v st1.resIndex }
      (st2, v)

/-! ## Targeted send (`send`, `sendToClient`) -/

/-- Embedding of `send(res, payload)`.  The guard `if (!res ||
res.writableEnded) return;` reads `writableEnded` outside any `try`, so a
corrupt or unknown reference raises (`Except.error`).  On write failure the
response is best-effort ended and `removeClient(res)` is invoked. -/
def send (st : SSEState) (res : Option Nat) (p : Payload) : Except SSEState SSEState :=
  match res with
  | none => .ok st
  | some rid =>
      match heapGet st rid with
      | none => .error st
      | some h =>
          if h.readEndedThrows then .error st
          else if h.writableEnded then .ok st
          else
            let wr := writeToClient st (some rid) (formatSSEMessage p)
            if wr.2 then .ok wr.1
            else .ok (removeClient (endAttempt wr.1 rid) (some rid))

/-- Embedding of `sendToClient(clientId, payload)`.  Reads `res.writableEnded`
outside any `try` (line 246), so a corrupt handle raises. -/
def sendToClient (st : SSEState) (clientId : MapKey) (p : Payload) :
    Except SSEState (SSEState × Bool) :=
  match assocGet clientId st.clients with
  | none => .ok (st, false)
  | some entry =>
      match entry.res with
      | none => .ok (st, false)
      | some rid =>
          match heapGet st rid with
          | none => .error st
          | some h =>
              if h.readEndedThrows then .error st
              else if h.writableEnded then .ok (removeClientById st clientId, false)
              else
                match send st (some rid) p with
                | .error s => .error s
                | .ok s => .ok (s, true)

/-- The boolean result of a `sendToClient` call that returned normally. -/
def sendResultBool : Except SSEState (SSEState × Bool) → Option Bool
  | .ok r => some r.2
  | .error _ => none

/-! ## Broadcast -/

/-- The write pass of `broadcast`: iterate the registry entries in order,
attempt each write, and collect (in iteration order) the keys whose write
failed.  The registry itself is not mutated during this pass. -/
def broadcastWrites (st : SSEState) (msg : String) :
    List (MapKey × Entry) → SSEState × List MapKey
  | [] => (st, [])
  | kv :: rest =>
      let wr := writeToClient st kv.2.res msg
      let r2 := broadcastWrites wr.1 msg rest
      (r2.1, if wr.2 then r2.2 else kv.1 :: r2.2)

/-- Embedding of `broadcast(payload)`: format once, write pass over all
entries, then removal of the collected failures after the iteration completes.
Every JS throw-site on this path is inside a `try`/`catch` (`writeToClient`,
and the reads and `end()` inside `removeClientById`), so the call never
raises: the embedding is a total function into `SSEState`. -/
def broadcast (st : SSEState) (p : Payload) : SSEState :=
  let pass := broadcastWrites st (formatSSEMessage p) st.clients
  pass.2.foldl removeClientById pass.1

/-- The loop of `broadcastAndClose`: for each entry, `if (!res.writableEnded)`
is read outside any `try` (line 378), so an `undefined`, unknown or corrupt
reference raises and aborts the loop with the state mutated so far; otherwise
a non-ended stream gets the write attempt and a best-effort `end()`. -/
def bacLoop (st : SSEState) (msg : String) :
    List (MapKey × Entry) → Except SSEState SSEState
  | [] => .ok st
  | kv :: rest =>
      match kv.2.res with
      | none => .error st
      | some rid =>
          match heapGet st rid with
          | none => .error st
          | some h =>
              if h.readEndedThrows then .error st
              else if h.writableEnded then bacLoop st msg rest
              else
                let wr := writeToClient st (some rid) msg
                bacLoop (endAttempt wr.1 rid) msg rest

/-- Embedding of `broadcastAndClose(payload)`: format once, loop over every
entry, then `clients.clear()`.  The clear is unconditional whenever the loop
finishes, no matter how many writes or `end()` calls failed. -/
def broadcastAndClose (st : SSEState) (p : Payload) : Except SSEState SSEState :=
  match bacLoop st (formatSSEMessage p) st.clients with
  | .error s => .error s
  | .ok s => .ok { s with clients := [] }

/-- The client count after a call that may have raised: `some n` when the call
returned normally with `n` registered clients, `none` when it raised. -/
def countAfter : Except SSEState SSEState → Option Nat
  | .ok s => some (getClientCount s)
  | .error _ => none

/-! ## Stale pruning (`cleanupStaleClients`) -/

/-- Default `maxAgeMs` of `cleanupStaleClients` (one hour). -/
def defaultMaxAgeMs : Nat := 1000 * 60 * 60

/-- The per-entry removal condition of `cleanupStaleClients`, evaluated against
the current heap: `!res || res.writableEnded || (maxAgeMs && age > maxAgeMs)`,
with the catch-branch cases (reading `writableEnded` throws, or the reference
is unknown) folded in as removal, since the `catch` also removes.  Note the JS
truthiness guard on `maxAgeMs`: a zero `maxAgeMs` disables the age criterion
entirely. -/
def cleanupCond (st : SSEState) (now maxAgeMs : Nat) (e : Entry) : Bool :=
  match e.res with
  | none => true
  | some rid =>
      match heapGet st rid with
      | none => true
      | some h =>
          h.readEndedThrows || h.writableEnded ||
            (decide (maxAgeMs ≠ 0) && decide (now - e.createdAt > maxAgeMs))

/-- The pass of `cleanupStaleClients` over the snapshot
`Array.from(clients.entries())`: each stale or corrupt entry is removed via
`removeClientById`; per-entry errors are caught, so the pass always continues
to the remaining records. -/
def cleanupGo (now maxAgeMs : Nat) (st : SSEState) : List (MapKey × Entry) → SSEState
  | [] => st
  | kv :: rest =>
      let st1 := if cleanupCond st now maxAgeMs kv.2 then removeClientById st kv.1 else st
      cleanupGo now maxAgeMs st1 rest

/-- Embedding of `cleanupStaleClients(maxAgeMs = 1000 * 60 * 60)`;
`now` is `Date.now()` at the start of the pass. -/
def cleanupStaleClients (st : SSEState) (now maxAgeMs : Nat) : SSEState :=
  cleanupGo now maxAgeMs st st.clients

/-! ## Well-formedness of states (facts true of every state the JS module can
reach, used as hypotheses): the `clients` Map cannot hold duplicate keys, and
distinct entries are expected to hold distinct response objects. -/

/-- The registry keys are pairwise distinct (automatic for a JS `Map`). -/
def KeysNodup (st : SSEState) : Prop :=
  (st.clients.map Prod.fst).Nodup

/-- No two registry entries reference the same response object (the §3
registry invariant; an entry without a reference is unconstrained). -/
def ResNodup (st : SSEState) : Prop :=
  st.clients.Pairwise (fun a b => a.2.res = none ∨ a.2.res ≠ b.2.res)

instance (st : SSEState) : Decidable (KeysNodup st) := by
  unfold KeysNodup; infer_instance

instance (st : SSEState) : Decidable (ResNodup st) := by
  unfold ResNodup; infer_instance

/-! ## Concrete handles and states used by witnesses and counterexamples -/

/-- A healthy open response. -/
def liveHandle : Handle := ⟨false, false, false, false, []⟩

/-- An open response whose `write` throws (peer gone / broken pipe). -/
def writeFailsHandle : Handle := ⟨false, true, false, false, []⟩

/-- An open response whose `end()` throws. -/
def endThrowsHandle : Handle := ⟨false, false, true, false, []⟩

/-- A response whose stream has already ended. -/
def endedHandle : Handle := ⟨true, false, false, false, []⟩

/-- A corrupt response: reading its `writableEnded` property throws. -/
def corruptHandle : Handle := ⟨false, false, false, true, []⟩

/-- Entry referencing response 1 (broadcast scenario). -/
def c1entryA : Entry := ⟨some 1, ⟨none, none, none⟩, 0⟩

/-- Entry referencing response 2 (broadcast scenario). -/
def c1entryB : Entry := ⟨some 2, ⟨none, none, none⟩, 0⟩

/-- Broadcast scenario: two registered clients, response 1 healthy, response 2
failing on write (the P6 scenario). -/
def c1st : SSEState :=
  ⟨[(some "a", c1entryA), (some "b", c1entryB)],
   [(1, some "a"), (2, some "b")],
   [(1, liveHandle), (2, writeFailsHandle)]⟩

/-- Shutdown scenario: one client whose write fails and one whose `end()`
throws. -/
def c2st : SSEState :=
  ⟨[(some "a", c1entryA), (some "b", c1entryB)],
   [(1, some "a"), (2, some "b")],
   [(1, writeFailsHandle), (2, endThrowsHandle)]⟩

/-- The state reached from an empty registry by registering response 1 through
the one-argument compat form `addClient(res)`. -/
def c5st1 : SSEState :=
  (addClient ⟨[], [], [(1, liveHandle)]⟩ 10 "aaaaaa" (.resOnly 1)).1

/-- The state reached from `c5st1` by registering the same response 1 again
through the compat form (a second `addClient(res)` call). -/
def c5st2 : SSEState :=
  (addClient c5st1 11 "bbbbbb" (.resOnly 1)).1

/-- The `addClient(undefined, res, { ip })` call performed by
`sseSendTimeController.time` when `req.sessionID` is absent. -/
def c4call : SSEState × MapKey :=
  addClient ⟨[], [], [(7, liveHandle)]⟩ 5 "abc123"
    (.withId none 7 (some ⟨some "1.2.3.4", none, none⟩))

/-- A registry holding one young, live client (pruning counterexample). -/
def c7st : SSEState :=
  ⟨[(some "a", ⟨some 1, ⟨none, none, none⟩, 0⟩)], [(1, some "a")], [(1, liveHandle)]⟩

/-- Pruning scenario: a young live client, an ended one, one without a usable
response reference, a corrupt one, and an over-age one. -/
def c7mix : SSEState :=
  ⟨[(some "a", ⟨some 1, ⟨none, none, none⟩, 150⟩),
    (some "b", ⟨some 2, ⟨none, none, none⟩, 150⟩),
    (some "c", ⟨none, ⟨none, none, none⟩, 150⟩),
    (some "d", ⟨some 4, ⟨none, none, none⟩, 150⟩),
    (some "e", ⟨some 5, ⟨none, none, none⟩, 0⟩)],
   [(1, some "a"), (2, some "b"), (4, some "d"), (5, some "e")],
   [(1, liveHandle), (2, endedHandle), (4, corruptHandle), (5, liveHandle)]⟩

/-- Registry with one registered client on response 3 whose stream has ended
(stale-send scenario). -/
def c6stale : SSEState :=
  ⟨[(some "c1", ⟨some 3, ⟨none, none, none⟩, 0⟩)], [(3, some "c1")], [(3, endedHandle)]⟩

/-- Registry with one registered client whose stored response reference is
`undefined`. -/
def c6nores : SSEState :=
  ⟨[(some "c1", ⟨none, ⟨none, none, none⟩, 0⟩)], [], []⟩

/-- Registry with one live registered client on response 3. -/
def c6live : SSEState :=
  ⟨[(some "c1", ⟨some 3, ⟨none, none, none⟩, 0⟩)], [(3, some "c1")], [(3, liveHandle)]⟩

/-- Registry with one client under id `"old"` on response 1 (re-registration
scenario). -/
def c5old : SSEState :=
  ⟨[(some "old", ⟨some 1, ⟨none, none, none⟩, 0⟩)], [(1, some "old")], [(1, liveHandle)]⟩

/-! ## Assoc-list lemmas -/

theorem assocGet_set_self {κ α : Type} [DecidableEq κ] (k : κ) (v : α) (m : List (κ × α)) :
    assocGet k (assocSet k v m) = some v := by
  induction m with
  | nil => simp [assocGet, assocSet]
  | cons kv rest ih =>
      by_cases h : kv.1 = k
      · simp [assocSet, h, assocGet]
      · simp [assocSet, h, assocGet, ih]

theorem assocGet_set_other {κ α : Type} [DecidableEq κ] {k k' : κ} (v : α)
    (m : List (κ × α)) (h : k' ≠ k) :
    assocGet k' (assocSet k v m) = assocGet k' m := by
  induction m with
  | nil => simp [assocGet, assocSet, Ne.symm h]
  | cons kv rest ih =>
      by_cases hk : kv.1 = k
      · have h3 : kv.1 ≠ k' := by rw [hk]; exact Ne.symm h
        simp [assocSet, hk, assocGet, Ne.symm h, h3]
      · by_cases hk' : kv.1 = k'
        · simp [assocSet, hk, assocGet, hk', h]
        · simp [assocSet, hk, assocGet, hk', ih]

theorem assocGet_delete_self {κ α : Type} [DecidableEq κ] (k : κ) (m : List (κ × α)) :
    assocGet k (assocDelete k m) = none := by
  induction m with
  | nil => rfl
  | cons kv rest ih =>
      by_cases h : kv.1 = k
      · simp [assocDelete, h, ih]
      · simp [assocDelete, h, assocGet, ih]

theorem assocGet_delete_other {κ α : Type} [DecidableEq κ] {k k' : κ}
    (m : List (κ × α)) (h : k' ≠ k) :
    assocGet k' (assocDelete k m) = assocGet k' m := by
  induction m with
  | nil => rfl
  | cons kv rest ih =>
      by_cases hk : kv.1 = k
      · have h3 : kv.1 ≠ k' := by rw [hk]; exact Ne.symm h
        simp [assocDelete, hk, assocGet, h3, Ne.symm h, ih]
      · by_cases hk' : kv.1 = k'
        · simp [assocDelete, hk, assocGet, hk', h]
        · simp [assocDelete, hk, assocGet, hk', ih]

theorem assocDelete_of_get_none {κ α : Type} [DecidableEq κ] {k : κ} {m : List (κ × α)}
    (h : assocGet k m = none) : assocDelete k m = m := by
  induction m with
  | nil => rfl
  | cons kv rest ih =>
      by_cases hk : kv.1 = k
      · simp [assocGet, hk] at h
      · simp [assocGet, hk] at h
        simp [assocDelete, hk, ih h]

theorem assocGet_none_of_not_mem {κ α : Type} [DecidableEq κ] {k : κ} {m : List (κ × α)}
    (h : k ∉ m.map Prod.fst) : assocGet k m = none := by
  induction m with
  | nil => rfl
  | cons kv rest ih =>
      have hk : kv.1 ≠ k := by
        intro he; exact h (by simp [he])
      have hrest : k ∉ rest.map Prod.fst := by
        intro hm; exact h (by simp [hm])
      simp [assocGet, hk, ih hrest]

theorem assocGet_of_mem_nodup {κ α : Type} [DecidableEq κ] {m : List (κ × α)} {k : κ} {v : α}
    (hnd : (m.map Prod.fst).Nodup) (hm : (k, v) ∈ m) : assocGet k m = some v := by
  induction m with
  | nil => cases hm
  | cons kv rest ih =>
      have hnd2 : kv.1 ∉ rest.map Prod.fst ∧ (rest.map Prod.fst).Nodup := by
        rw [List.map_cons, List.nodup_cons] at hnd
        exact hnd
      rcases List.mem_cons.mp hm with heq | hmem
      · subst heq; simp [assocGet]
      · have hk1 : kv.1 ≠ k := by
          intro hk
          exact hnd2.1 (hk ▸ List.mem_map.mpr ⟨(k, v), hmem, rfl⟩)
        simp [assocGet, hk1, ih hnd2.2 hmem]

theorem assocDelete_length {κ α : Type} [DecidableEq κ] (k : κ) {m : List (κ × α)}
    (hnd : (m.map Prod.fst).Nodup) :
    m.length ≤ (assocDelete k m).length + 1 := by
  induction m with
  | nil => simp
  | cons kv rest ih =>
      have hnd2 : kv.1 ∉ rest.map Prod.fst ∧ (rest.map Prod.fst).Nodup := by
        rw [List.map_cons, List.nodup_cons] at hnd
        exact hnd
      by_cases hk : kv.1 = k
      · have hnone : assocGet k rest = none :=
          assocGet_none_of_not_mem (hk ▸ hnd2.1)
        simp [assocDelete, hk, assocDelete_of_get_none hnone]
      · have := ih hnd2.2
        simp only [assocDelete, hk, if_false, List.length_cons]
        omega

/-! ## Lemmas about the write path -/

theorem writeToClient_clients (st : SSEState) (r : Option Nat) (msg : String) :
    (writeToClient st r msg).1.clients = st.clients ∧
    (writeToClient st r msg).1.resIndex = st.resIndex := by
  rcases r with _ | rid
  · exact ⟨rfl, rfl⟩
  · rcases hh : assocGet rid st.heap with _ | h
    · simp [writeToClient, heapGet, hh]
    · by_cases h1 : h.readEndedThrows <;> by_cases h2 : h.writableEnded <;>
        by_cases h3 : h.writeFails <;> simp [writeToClient, heapGet, hh, h1, h2, h3]

theorem writeToClient_bool (st : SSEState) (r : Option Nat) (msg : String) :
    (writeToClient st r msg).2 = writeOk st r := by
  rcases r with _ | rid
  · rfl
  · rcases hh : assocGet rid st.heap with _ | h
    · simp [writeToClient, writeOk, heapGet, hh]
    · by_cases h1 : h.readEndedThrows <;> by_cases h2 : h.writableEnded <;>
        by_cases h3 : h.writeFails <;> simp [writeToClient, writeOk, heapGet, hh, h1, h2, h3]

theorem writeToClient_of_fail (st : SSEState) (r : Option Nat) (msg : String)
    (hfail : writeOk st r = false) : (writeToClient st r msg).1 = st := by
  rcases r with _ | rid
  · rfl
  · rcases hh : assocGet rid st.heap with _ | h
    · simp [writeToClient, heapGet, hh]
    · by_cases h1 : h.readEndedThrows <;> by_cases h2 : h.writableEnded <;>
        by_cases h3 : h.writeFails <;>
        simp_all [writeToClient, writeOk, heapGet, hh, h1, h2, h3]

theorem writeOk_writeToClient (st : SSEState) (r r' : Option Nat) (msg : String) :
    writeOk (writeToClient st r msg).1 r' = writeOk st r' := by
  rcases hfail : writeOk st r with _ | _
  · rw [writeToClient_of_fail st r msg hfail]
  · rcases r with _ | rid
    · simp [writeOk] at hfail
    · rcases hh : assocGet rid st.heap with _ | h
      · simp [writeOk, heapGet, hh] at hfail
      · simp only [writeOk, heapGet, hh, Bool.and_eq_true, Bool.not_eq_true'] at hfail
        rcases r' with _ | rid'
        · simp [writeToClient, heapGet, hh, hfail.1.1, hfail.1.2, hfail.2, writeOk]
        · by_cases he : rid' = rid
          · subst he
            simp [writeToClient, heapGet, hh, hfail.1.1, hfail.1.2, hfail.2, writeOk,
                  assocGet_set_self]
          · simp [writeToClient, heapGet, hh, hfail.1.1, hfail.1.2, hfail.2, writeOk,
                  assocGet_set_other _ _ he]

theorem writtenOf_writeToClient_self (st : SSEState) (r : Option Nat) (msg : String)
    (hok : writeOk st r = true) :
    writtenOf (writeToClient st r msg).1 r = writtenOf st r ++ [msg] := by
  rcases r with _ | rid
  · simp [writeOk] at hok
  · rcases hh : assocGet rid st.heap with _ | h
    · simp [writeOk, heapGet, hh] at hok
    · simp only [writeOk, heapGet, hh, Bool.and_eq_true, Bool.not_eq_true'] at hok
      simp [writeToClient, heapGet, hh, hok.1.1, hok.1.2, hok.2, writtenOf,
            assocGet_set_self]

theorem writtenOf_writeToClient_other (st : SSEState) (r r' : Option Nat) (msg : String)
    (hne : r' ≠ r) :
    writtenOf (writeToClient st r msg).1 r' = writtenOf st r' := by
  rcases r with _ | rid
  · rfl
  · rcases hh : assocGet rid st.heap with _ | h
    · simp [writeToClient, heapGet, hh]
    · by_cases h1 : h.readEndedThrows
      · simp [writeToClient, heapGet, hh, h1]
      · by_cases h2 : h.writableEnded
        · simp [writeToClient, heapGet, hh, h1, h2]
        · by_cases h3 : h.writeFails
          · simp [writeToClient, heapGet, hh, h1, h2, h3]
          · rcases r' with _ | rid'
            · simp [writeToClient, heapGet, hh, h1, h2, h3, writtenOf]
            · have hne2 : rid' ≠ rid := by
                intro he; exact hne (by rw [he])
              simp [writeToClient, heapGet, hh, h1, h2, h3, writtenOf,
                    assocGet_set_other _ _ hne2]

/-! ## Lemmas about ending and removal -/

theorem endAttempt_clients (st : SSEState) (rid : Nat) :
    (endAttempt st rid).clients = st.clients ∧ (endAttempt st rid).resIndex = st.resIndex := by
  rcases hh : assocGet rid st.heap with _ | h
  · simp [endAttempt, heapGet, hh]
  · by_cases h1 : h.endThrows <;> simp [endAttempt, heapGet, hh, h1]

theorem writtenOf_endAttempt (st : SSEState) (rid : Nat) (r : Option Nat) :
    writtenOf (endAttempt st rid) r = writtenOf st r := by
  rcases hh : assocGet rid st.heap with _ | h
  · simp [endAttempt, heapGet, hh]
  · by_cases h1 : h.endThrows
    · simp [endAttempt, heapGet, hh, h1]
    · rcases r with _ | rid'
      · simp [endAttempt, heapGet, hh, h1, writtenOf]
      · by_cases he : rid' = rid
        · subst he
          simp [endAttempt, heapGet, hh, h1, writtenOf, assocGet_set_self]
        · simp [endAttempt, heapGet, hh, h1, writtenOf, assocGet_set_other _ _ he]

theorem heapGet_endAttempt_other (st : SSEState) {rid rid' : Nat} (h : rid' ≠ rid) :
    heapGet (endAttempt st rid) rid' = heapGet st rid' := by
  rcases hh : assocGet rid st.heap with _ | hd
  · simp [endAttempt, heapGet, hh]
  · by_cases h1 : hd.endThrows
    · simp [endAttempt, heapGet, hh, h1]
    · simp [endAttempt, heapGet, hh, h1, assocGet_set_other _ _ h]

theorem guardedEnd_clients (st : SSEState) (r : Option Nat) :
    (guardedEnd st r).clients = st.clients ∧ (guardedEnd st r).resIndex = st.resIndex := by
  rcases r with _ | rid
  · exact ⟨rfl, rfl⟩
  · rcases hh : assocGet rid st.heap with _ | h
    · simp [guardedEnd, heapGet, hh]
    · by_cases h1 : h.readEndedThrows
      · simp [guardedEnd, heapGet, hh, h1]
      · by_cases h2 : h.writableEnded
        · simp [guardedEnd, heapGet, hh, h1, h2]
        · simp [guardedEnd, heapGet, hh, h1, h2, endAttempt_clients]

theorem writtenOf_guardedEnd (st : SSEState) (r r' : Option Nat) :
    writtenOf (guardedEnd st r) r' = writtenOf st r' := by
  rcases r with _ | rid
  · rfl
  · rcases hh : assocGet rid st.heap with _ | h
    · simp [guardedEnd, heapGet, hh]
    · by_cases h1 : h.readEndedThrows
      · simp [guardedEnd, heapGet, hh, h1]
      · by_cases h2 : h.writableEnded
        · simp [guardedEnd, heapGet, hh, h1, h2]
        · simp [guardedEnd, heapGet, hh, h1, h2, writtenOf_endAttempt]

theorem heapGet_guardedEnd_other (st : SSEState) {r : Option Nat} {rid : Nat}
    (h : r ≠ some rid) :
    heapGet (guardedEnd st r) rid = heapGet st rid := by
  rcases r with _ | rid2
  · rfl
  · have hne : rid ≠ rid2 := by
      intro he; exact h (by rw [he])
    rcases hh : assocGet rid2 st.heap with _ | hd
    · simp [guardedEnd, heapGet, hh]
    · by_cases h1 : hd.readEndedThrows
      · simp [guardedEnd, heapGet, hh, h1]
      · by_cases h2 : hd.writableEnded
        · simp [guardedEnd, heapGet, hh, h1, h2]
        · simpa [guardedEnd, heapGet, hh, h1, h2] using heapGet_endAttempt_other st hne

theorem removeClientById_writtenOf (st : SSEState) (k : MapKey) (r : Option Nat) :
    writtenOf (removeClientById st k) r = writtenOf st r := by
  rcases hget : assocGet k st.clients with _ | e
  · simp [removeClientById, hget]
  · have hwr := writtenOf_guardedEnd st e.res r
    have hwof : ∀ c ri, writtenOf ⟨c, ri, (guardedEnd st e.res).heap⟩ r = writtenOf st r := by
      intro c ri
      rcases r with _ | rid2
      · rfl
      · simpa [writtenOf, heapGet] using hwr
    rcases hres : e.res with _ | rid <;>
      rw [hres] at hwof <;>
      simp only [removeClientById, hget, hres] <;>
      exact hwof _ _

theorem removeClientById_get_self (st : SSEState) (k : MapKey) :
    assocGet k (removeClientById st k).clients = none := by
  rcases hget : assocGet k st.clients with _ | e
  · simp [removeClientById, hget]
  · have hcl := (guardedEnd_clients st e.res).1
    rcases hres : e.res with _ | rid <;>
      simp [removeClientById, hget, hres, hcl, assocGet_delete_self]

theorem removeClientById_get_other (st : SSEState) {k k' : MapKey} (h : k' ≠ k) :
    assocGet k' (removeClientById st k).clients = assocGet k' st.clients := by
  rcases hget : assocGet k st.clients with _ | e
  · simp [removeClientById, hget]
  · have hcl := (guardedEnd_clients st e.res).1
    rcases hres : e.res with _ | rid <;>
      rw [hres] at hcl <;>
      simp [removeClientById, hget, hres, hcl, assocGet_delete_other _ h]

theorem removeClientById_none_preserved (st : SSEState) (k : MapKey) {k' : MapKey}
    (h : assocGet k' st.clients = none) :
    assocGet k' (removeClientById st k).clients = none := by
  by_cases he : k' = k
  · subst he; exact removeClientById_get_self st k'
  · rw [removeClientById_get_other st he]; exact h

theorem removeClientById_heapGet (st : SSEState) (k : MapKey) {rid : Nat}
    (h : ∀ e, assocGet k st.clients = some e → e.res ≠ some rid) :
    heapGet (removeClientById st k) rid = heapGet st rid := by
  rcases hget : assocGet k st.clients with _ | e
  · simp [removeClientById, hget]
  · have hh := heapGet_guardedEnd_other st (h e hget)
    rcases hres : e.res with _ | rid2 <;>
      rw [hres] at hh <;>
      simp [removeClientById, hget, hres, heapGet] <;>
      simpa [heapGet] using hh

theorem foldl_removeById_get_not_mem (L : List MapKey) (st : SSEState) {k : MapKey}
    (h : k ∉ L) :
    assocGet k (L.foldl removeClientById st).clients = assocGet k st.clients := by
  induction L generalizing st with
  | nil => rfl
  | cons a L2 ih =>
      have hka : k ≠ a := fun he => h (he ▸ List.mem_cons_self a L2)
      have htail : k ∉ L2 := fun hm => h (List.mem_cons_of_mem a hm)
      simp only [List.foldl_cons]
      rw [ih (removeClientById st a) htail, removeClientById_get_other st hka]

theorem foldl_removeById_none (L : List MapKey) (st : SSEState) {k : MapKey}
    (h : assocGet k st.clients = none) :
    assocGet k (L.foldl removeClientById st).clients = none := by
  induction L generalizing st with
  | nil => exact h
  | cons a L2 ih =>
      simp only [List.foldl_cons]
      exact ih (removeClientById st a) (removeClientById_none_preserved st a h)

theorem foldl_removeById_get_mem (L : List MapKey) (st : SSEState) {k : MapKey}
    (h : k ∈ L) :
    assocGet k (L.foldl removeClientById st).clients = none := by
  induction L generalizing st with
  | nil => cases h
  | cons a L2 ih =>
      simp only [List.foldl_cons]
      by_cases he : k = a
      · subst he
        exact foldl_removeById_none L2 (removeClientById st k)
          (removeClientById_get_self st k)
      · exact ih (removeClientById st a) (List.mem_of_ne_of_mem he h)

theorem foldl_removeById_writtenOf (L : List MapKey) (st : SSEState) (r : Option Nat) :
    writtenOf (L.foldl removeClientById st) r = writtenOf st r := by
  induction L generalizing st with
  | nil => rfl
  | cons a L2 ih =>
      simp only [List.foldl_cons]
      rw [ih (removeClientById st a), removeClientById_writtenOf st a r]

/-! ## Lemmas about the broadcast write pass -/

theorem broadcastWrites_clients (msg : String) :
    ∀ (l : List (MapKey × Entry)) (st : SSEState),
      (broadcastWrites st msg l).1.clients = st.clients ∧
      (broadcastWrites st msg l).1.resIndex = st.resIndex := by
  intro l
  induction l with
  | nil => intro st; exact ⟨rfl, rfl⟩
  | cons kv rest ih =>
      intro st
      have hw := writeToClient_clients st kv.2.res msg
      simp only [broadcastWrites]
      exact ⟨by rw [(ih _).1, hw.1], by rw [(ih _).2, hw.2]⟩

theorem writeOk_broadcastWrites (msg : String) :
    ∀ (l : List (MapKey × Entry)) (st : SSEState) (r : Option Nat),
      writeOk (broadcastWrites st msg l).1 r = writeOk st r := by
  intro l
  induction l with
  | nil => intro st r; rfl
  | cons kv rest ih =>
      intro st r
      simp only [broadcastWrites]
      rw [ih _ r, writeOk_writeToClient]

theorem broadcastWrites_fail_mem (msg : String) :
    ∀ (l : List (MapKey × Entry)) (st : SSEState) (k : MapKey) (e : Entry),
      (k, e) ∈ l → writeOk st e.res = false → k ∈ (broadcastWrites st msg l).2 := by
  intro l
  induction l with
  | nil => intro st k e hm; cases hm
  | cons kv rest ih =>
      intro st k e hm hfail
      rcases List.mem_cons.mp hm with heq | hmem
      · have hkv2 : kv.2.res = e.res := by rw [← heq]
        have hb : (writeToClient st kv.2.res msg).2 = false := by
          rw [writeToClient_bool, hkv2]; exact hfail
        have hk1 : kv.1 = k := by rw [← heq]
        simp only [broadcastWrites, hb]
        rw [hk1]
        simp
      · have hf2 : writeOk (writeToClient st kv.2.res msg).1 e.res = false := by
          rw [writeOk_writeToClient]; exact hfail
        have hmem2 := ih (writeToClient st kv.2.res msg).1 k e hmem hf2
        simp only [broadcastWrites]
        by_cases hw : (writeToClient st kv.2.res msg).2
        · simpa [hw] using hmem2
        · simp only [hw, Bool.false_eq_true, if_false]
          exact List.mem_cons_of_mem _ hmem2

theorem broadcastWrites_mem_fail (msg : String) :
    ∀ (l : List (MapKey × Entry)) (st : SSEState) (k : MapKey),
      k ∈ (broadcastWrites st msg l).2 →
      ∃ e, (k, e) ∈ l ∧ writeOk st e.res = false := by
  intro l
  induction l with
  | nil => intro st k h; simp [broadcastWrites] at h
  | cons kv rest ih =>
      intro st k h
      simp only [broadcastWrites] at h
      by_cases hw : (writeToClient st kv.2.res msg).2
      · rw [if_pos hw] at h
        rcases ih _ k h with ⟨e, hmem, hfail⟩
        rw [writeOk_writeToClient] at hfail
        exact ⟨e, List.mem_cons_of_mem _ hmem, hfail⟩
      · rw [if_neg hw] at h
        rcases List.mem_cons.mp h with heq | hmem
        · refine ⟨kv.2, ?_, ?_⟩
          · rw [heq]; simp
          · rw [writeToClient_bool] at hw
            exact Bool.not_eq_true _ ▸ (Bool.eq_false_iff.mpr hw)
        · rcases ih _ k hmem with ⟨e, hmem2, hfail⟩
          rw [writeOk_writeToClient] at hfail
          exact ⟨e, List.mem_cons_of_mem _ hmem2, hfail⟩

theorem broadcastWrites_writtenOf_other (msg : String) :
    ∀ (l : List (MapKey × Entry)) (st : SSEState) (r : Option Nat),
      (∀ p ∈ l, p.2.res ≠ r) →
      writtenOf (broadcastWrites st msg l).1 r = writtenOf st r := by
  intro l
  induction l with
  | nil => intro st r _; rfl
  | cons kv rest ih =>
      intro st r h
      have hhead : r ≠ kv.2.res := Ne.symm (h kv (List.mem_cons_self kv rest))
      have htail : ∀ p ∈ rest, p.2.res ≠ r := fun p hp => h p (List.mem_cons_of_mem kv hp)
      simp only [broadcastWrites]
      rw [ih _ r htail, writtenOf_writeToClient_other st kv.2.res r msg hhead]

theorem broadcastWrites_writtenOf_self (msg : String) :
    ∀ (l : List (MapKey × Entry)) (st : SSEState) (k : MapKey) (e : Entry),
      l.Pairwise (fun a b => a.2.res = none ∨ a.2.res ≠ b.2.res) →
      (k, e) ∈ l → writeOk st e.res = true →
      writtenOf (broadcastWrites st msg l).1 e.res = writtenOf st e.res ++ [msg] := by
  intro l
  induction l with
  | nil => intro st k e _ hm; cases hm
  | cons kv rest ih =>
      intro st k e hpw hm hok
      have hparts := List.pairwise_cons.mp hpw
      have heresome : e.res ≠ none := by
        intro hnone
        rw [hnone] at hok
        simp [writeOk] at hok
      rcases List.mem_cons.mp hm with heq | hmem
      · have hkv2 : kv.2.res = e.res := by rw [← heq]
        have hrest : ∀ p ∈ rest, p.2.res ≠ e.res := by
          intro p hp
          rcases hparts.1 p hp with hnone | hne
          · rw [hkv2] at hnone; exact absurd hnone heresome
          · rw [hkv2] at hne; exact Ne.symm hne
        simp only [broadcastWrites]
        rw [broadcastWrites_writtenOf_other msg rest _ e.res hrest, hkv2,
            writtenOf_writeToClient_self st e.res msg hok]
      · have hstep : writtenOf (writeToClient st kv.2.res msg).1 e.res = writtenOf st e.res := by
          by_cases hkvnone : kv.2.res = none
          · rw [hkvnone]; rfl
          · have hne : e.res ≠ kv.2.res := by
              rcases hparts.1 (k, e) hmem with hnone | hne2
              · exact absurd hnone hkvnone
              · exact Ne.symm hne2
            exact writtenOf_writeToClient_other st kv.2.res e.res msg hne
        have hok2 : writeOk (writeToClient st kv.2.res msg).1 e.res = true := by
          rw [writeOk_writeToClient]; exact hok
        simp only [broadcastWrites]
        rw [ih _ k e hparts.2 hmem hok2, hstep]

/-! ## Lemmas about the pruning pass -/

theorem cleanupGo_get_not_mem (now maxAgeMs : Nat) :
    ∀ (l : List (MapKey × Entry)) (st : SSEState) (k : MapKey),
      k ∉ l.map Prod.fst →
      assocGet k (cleanupGo now maxAgeMs st l).clients = assocGet k st.clients := by
  intro l
  induction l with
  | nil => intro st k _; rfl
  | cons kv rest ih =>
      intro st k h
      have hka : k ≠ kv.1 := fun he => h (by simp [he])
      have htail : k ∉ rest.map Prod.fst := fun hm => h (by simp [hm])
      simp only [cleanupGo]
      rw [ih _ k htail]
      by_cases hc : cleanupCond st now maxAgeMs kv.2 = true
      · rw [if_pos hc, removeClientById_get_other st hka]
      · rw [if_neg hc]

theorem cleanupCond_congr {st st' : SSEState} (now maxAgeMs : Nat) (e : Entry)
    (h : ∀ rid, e.res = some rid → heapGet st' rid = heapGet st rid) :
    cleanupCond st' now maxAgeMs e = cleanupCond st now maxAgeMs e := by
  rcases hres : e.res with _ | rid
  · simp [cleanupCond, hres]
  · simp [cleanupCond, hres, h rid hres]

theorem cleanupGo_spec (now maxAgeMs : Nat) :
    ∀ (l : List (MapKey × Entry)) (st : SSEState),
      (l.map Prod.fst).Nodup →
      (∀ p ∈ l, assocGet p.1 st.clients = some p.2) →
      l.Pairwise (fun a b => a.2.res = none ∨ a.2.res ≠ b.2.res) →
      ∀ p ∈ l, assocGet p.1 (cleanupGo now maxAgeMs st l).clients =
        (if cleanupCond st now maxAgeMs p.2 then none else some p.2) := by
  intro l
  induction l with
  | nil => intro st _ _ _ p hp; cases hp
  | cons kv rest ih =>
      intro st hnd hcur hpw p hp
      have hndparts : kv.1 ∉ rest.map Prod.fst ∧ (rest.map Prod.fst).Nodup := by
        rw [List.map_cons, List.nodup_cons] at hnd; exact hnd
      have hpwparts := List.pairwise_cons.mp hpw
      rcases List.mem_cons.mp hp with heq | hmem
      · subst heq
        simp only [cleanupGo]
        by_cases hc : cleanupCond st now maxAgeMs p.2 = true
        · rw [if_pos hc, if_pos hc,
              cleanupGo_get_not_mem now maxAgeMs rest _ p.1 hndparts.1,
              removeClientById_get_self]
        · rw [if_neg hc, if_neg hc,
              cleanupGo_get_not_mem now maxAgeMs rest _ p.1 hndparts.1]
          exact hcur p (List.mem_cons_self p rest)
      · simp only [cleanupGo]
        by_cases hc : cleanupCond st now maxAgeMs kv.2 = true
        · rw [if_pos hc]
          have hcur1 : ∀ q ∈ rest, assocGet q.1 (removeClientById st kv.1).clients = some q.2 := by
            intro q hq
            have hq1ne : q.1 ≠ kv.1 := by
              intro he
              exact hndparts.1 (he ▸ List.mem_map.mpr ⟨q, hq, rfl⟩)
            rw [removeClientById_get_other st hq1ne]
            exact hcur q (List.mem_cons_of_mem kv hq)
          have hheap : ∀ rid, p.2.res = some rid →
              heapGet (removeClientById st kv.1) rid = heapGet st rid := by
            intro rid hrid
            apply removeClientById_heapGet
            intro e2 hge2
            have hkv := hcur kv (List.mem_cons_self kv rest)
            rw [hkv] at hge2
            injection hge2 with he2
            subst he2
            rcases hpwparts.1 p hmem with hnone | hne
            · rw [hnone]; simp
            · rw [hrid] at hne; exact hne
          rw [ih (removeClientById st kv.1) hndparts.2 hcur1 hpwparts.2 p hmem,
              cleanupCond_congr now maxAgeMs p.2 hheap]
        · rw [if_neg hc]
          exact ih st hndparts.2 (fun q hq => hcur q (List.mem_cons_of_mem kv hq))
            hpwparts.2 p hmem

/-! ## Claim theorems -/

/-- C3: for every payload whose JSON encoding succeeds with text `s`,
`formatSSEMessage` produces exactly `"data: " ++ s ++ "\n\n"`; for a payload
whose JSON encoding throws (e.g. a self-referential structure),
`formatSSEMessage` produces `"data: "` followed by the JSON encoding of the
fixed fallback object `{ error: "unserializable payload" }` and two newlines.
Both functions are total, so the call does not raise. -/
theorem formatSSEMessage_format_and_fallback :
    (∀ s : String, formatSSEMessage (Payload.serializable s) = "data: " ++ s ++ "\n\n") ∧
    jsonStringify Payload.cyclic = StringifyOutcome.throws ∧
    formatSSEMessage Payload.cyclic = "data: " ++ fallbackJson ++ "\n\n" :=
  ⟨fun _ => rfl, rfl, rfl⟩

/-- C10: for the payload `undefined` (or any payload on which `JSON.stringify`
returns `undefined` without throwing, such as a bare function),
`formatSSEMessage` returns `"data: undefined\n\n"` — the serializer yielded no
JSON text here, and the result differs from the fallback message — because the
fallback branch of `safeSerialize` runs only when the encoder throws, not when
it yields no string. -/
theorem formatSSEMessage_undefined_payload :
    jsonStringify Payload.undef = StringifyOutcome.undef ∧
    safeSerialize Payload.undef = none ∧
    formatSSEMessage Payload.undef = "data: undefined\n\n" ∧
    formatSSEMessage Payload.undef ≠ "data: " ++ fallbackJson ++ "\n\n" :=
  ⟨rfl, rfl, rfl, by decide⟩

/-- C9: the client-side parser never propagates the JSON decode exception: a
throwing decode, or a decoded value that is not a non-null object (a string,
number, boolean, or null), yields the structured failure
`{ status := "invalid", payload := none }`; a decoded non-null object (or
array — also `typeof "object"`) yields `{ status := "ok" }` carrying the
decoded payload. -/
theorem parseSSEData_contract :
    parseSSEData ParseOutcome.throws = ⟨"invalid", none⟩ ∧
    (∀ t, parseSSEData (ParseOutcome.value (JsonValue.obj t)) =
      ⟨"ok", some (JsonValue.obj t)⟩) ∧
    (∀ t, parseSSEData (ParseOutcome.value (JsonValue.arr t)) =
      ⟨"ok", some (JsonValue.arr t)⟩) ∧
    (∀ s, parseSSEData (ParseOutcome.value (JsonValue.str s)) = ⟨"invalid", none⟩) ∧
    (∀ n, parseSSEData (ParseOutcome.value (JsonValue.num n)) = ⟨"invalid", none⟩) ∧
    (∀ b, parseSSEData (ParseOutcome.value (JsonValue.boolv b)) = ⟨"invalid", none⟩) ∧
    parseSSEData (ParseOutcome.value JsonValue.nullv) = ⟨"invalid", none⟩ := by
  refine ⟨rfl, fun t => ?_, fun t => ?_, fun s => ?_, fun n => ?_, fun b => ?_,
    by simp [parseSSEData]⟩ <;>
    simp [parseSSEData, typeofIsObject]

/-- C2: whenever `broadcastAndClose(payload)` returns, the registry is empty
afterwards — `count() == 0` — no matter which individual writes or `end()`
calls failed, because `clients.clear()` runs unconditionally after the loop. -/
theorem broadcastAndClose_postcondition (st : SSEState) (p : Payload)
    (h : countAfter (broadcastAndClose st p) ≠ none) :
    countAfter (broadcastAndClose st p) = some 0 := by
  rcases hb : bacLoop st (formatSSEMessage p) st.clients with s | s
  · exact absurd (by simp [broadcastAndClose, countAfter, hb]) h
  · simp [broadcastAndClose, countAfter, hb, getClientCount]

/-- Witness for C2: on a registry with one client whose write throws and one
whose `end()` throws, `broadcastAndClose` returns normally and the count is 0
afterwards. -/
theorem broadcastAndClose_postcondition_witness :
    countAfter (broadcastAndClose c2st (Payload.serializable "1")) ≠ none ∧
    countAfter (broadcastAndClose c2st (Payload.serializable "1")) = some 0 :=
  ⟨by decide, broadcastAndClose_postcondition c2st (Payload.serializable "1") (by decide)⟩

/-- C4: evaluation of the failing input.  `time()` in
`sseSendTimeController.js` calls `addClient(undefined, res, { ip })` when
`req.sessionID` is absent; the registration takes the preferred branch (the
second argument, the response, is truthy), so no anonymous id is generated:
the record is stored under the literal key `undefined` and `undefined` is
returned — not an `anon-<ms-timestamp>-<random-hex>` string as the claim, the
spec, and the controller's own comment ("the helper will generate a fallback
id") state. -/
theorem addClient_undefined_id_evaluation :
    c4call.2 = none ∧
    assocGet (none : MapKey) c4call.1.clients =
      some ⟨some 7, ⟨some "1.2.3.4", none, none⟩, 5⟩ ∧
    assocGet (some "anon-5-abc123" : MapKey) c4call.1.clients = none ∧
    getClientCount c4call.1 = 1 := by decide

/-- C5 counterexample: registering the same response twice through the
backwards-compatible one-argument form (`addClient(res)`, modelled by
`AddArg.resOnly`) leaves two registry entries that both reference response 1:
the "at most one registry entry per handle" invariant is not preserved by
every operation, because the compat branch performs no drop of the previous
mapping. -/
theorem addClient_compat_no_drop :
    getClientCount c5st2 = 2 ∧
    (c5st2.clients.filter (fun kv => decide (kv.2.res = some 1))).length = 2 ∧
    ¬ ResNodup c5st2 := by decide

/-- C5 (amended): the preferred three-argument registration form with truthy
string ids preserves the invariant: when the response is currently indexed
under a different truthy id, that old id's registry entry is dropped before
the new entry is stored, and the new id is returned.  (The backwards-compatible
one-argument form does not perform this drop — see the counterexample — and
neither does any branch when the stored or supplied id is `undefined` or
empty.) -/
theorem addClient_withId_drops_old (st : SSEState) (now : Nat) (rnd : String)
    (rid : Nat) (meta : Option Meta) (ex b : String)
    (hjoin : joinGet st rid = some ex) (hexne : ex ≠ "") (hneb : ex ≠ b) :
    assocGet (some ex : MapKey)
      (addClient st now rnd (AddArg.withId (some b) rid meta)).1.clients = none ∧
    assocGet (some b : MapKey)
      (addClient st now rnd (AddArg.withId (some b) rid meta)).1.clients =
      some ⟨some rid, standardizeMeta meta, now⟩ ∧
    (addClient st now rnd (AddArg.withId (some b) rid meta)).2 = some b := by
  have hsome : (some ex : MapKey) ≠ some b := by simpa using hneb
  have h1 : (addClient st now rnd (AddArg.withId (some b) rid meta)).1.clients =
      assocSet (some b) ⟨some rid, standardizeMeta meta, now⟩
        (assocDelete (some ex) st.clients) := by
    simp [addClient, hjoin, hexne, hneb]
  refine ⟨?_, ?_, rfl⟩
  · rw [h1, assocGet_set_other _ _ hsome, assocGet_delete_self]
  · rw [h1, assocGet_set_self]

/-- Witness for C5 (amended): re-registering response 1 under the id
`"new"` while it is indexed under `"old"` drops the `"old"` entry and stores
the `"new"` one. -/
theorem addClient_withId_drops_old_witness :
    assocGet (some "old" : MapKey)
      (addClient c5old 9 "cafe01" (AddArg.withId (some "new") 1 none)).1.clients = none ∧
    assocGet (some "new" : MapKey)
      (addClient c5old 9 "cafe01" (AddArg.withId (some "new") 1 none)).1.clients =
      some ⟨some 1, standardizeMeta none, 9⟩ ∧
    (addClient c5old 9 "cafe01" (AddArg.withId (some "new") 1 none)).2 = some "new" := by
  have h := addClient_withId_drops_old c5old 9 "cafe01" 1 none "old" "new"
    (by decide) (by decide) (by decide)
  exact ⟨h.1, h.2.1, h.2.2⟩

/-- C6: `sendToClient` case analysis.  An id with no record returns false with
the state (hence `count()`) unchanged; a record without a usable response
reference returns false; a record whose stream has already ended is removed
(the id no longer resolves afterwards) and false is returned; a record with a
live response delegates the write to `send` and returns true. -/
theorem sendToClient_cases (st : SSEState) (clientId : MapKey) (p : Payload) :
    (assocGet clientId st.clients = none →
      sendToClient st clientId p = Except.ok (st, false)) ∧
    (∀ e, assocGet clientId st.clients = some e → e.res = none →
      sendToClient st clientId p = Except.ok (st, false)) ∧
    (∀ e rid hd, assocGet clientId st.clients = some e → e.res = some rid →
      heapGet st rid = some hd → hd.readEndedThrows = false → hd.writableEnded = true →
      sendToClient st clientId p = Except.ok (removeClientById st clientId, false) ∧
      assocGet clientId (removeClientById st clientId).clients = none) ∧
    (∀ e rid hd, assocGet clientId st.clients = some e → e.res = some rid →
      heapGet st rid = some hd → hd.readEndedThrows = false → hd.writableEnded = false →
      sendResultBool (sendToClient st clientId p) = some true) := by
  refine ⟨?_, ?_, ?_, ?_⟩
  · intro h
    simp [sendToClient, h]
  · intro e h hres
    simp [sendToClient, h, hres]
  · intro e rid hd h hres hh h1 h2
    exact ⟨by simp [sendToClient, h, hres, hh, h1, h2],
           removeClientById_get_self st clientId⟩
  · intro e rid hd h hres hh h1 h2
    rcases hwr : writeToClient st (some rid) (formatSSEMessage p) with ⟨s1, b⟩
    rcases b with _ | _
    · simp [sendToClient, h, hres, hh, h1, h2, send, hwr, sendResultBool]
    · simp [sendToClient, h, hres, hh, h1, h2, send, hwr, sendResultBool]

/-- Witness for C6: the four cases at concrete registries — unknown id (P8),
record without a response reference, record with an ended response (removed,
Scenario C), and a live record (returns true). -/
theorem sendToClient_cases_witness :
    sendToClient ⟨[], [], []⟩ (some "does-not-exist") (Payload.serializable "1") =
      Except.ok (⟨[], [], []⟩, false) ∧
    sendToClient c6nores (some "c1") (Payload.serializable "1") =
      Except.ok (c6nores, false) ∧
    (sendToClient c6stale (some "c1") (Payload.serializable "1") =
      Except.ok (removeClientById c6stale (some "c1"), false) ∧
      assocGet (some "c1" : MapKey) (removeClientById c6stale (some "c1")).clients = none) ∧
    sendResultBool (sendToClient c6live (some "c1") (Payload.serializable "1")) =
      some true := by
  refine ⟨?_, ?_, ?_, ?_⟩
  · exact (sendToClient_cases ⟨[], [], []⟩ (some "does-not-exist")
      (Payload.serializable "1")).1 (by decide)
  · exact (sendToClient_cases c6nores (some "c1") (Payload.serializable "1")).2.1
      ⟨none, ⟨none, none, none⟩, 0⟩ (by decide) rfl
  · exact (sendToClient_cases c6stale (some "c1") (Payload.serializable "1")).2.2.1
      ⟨some 3, ⟨none, none, none⟩, 0⟩ 3 endedHandle (by decide) rfl (by decide)
      (by decide) (by decide)
  · exact (sendToClient_cases c6live (some "c1") (Payload.serializable "1")).2.2.2
      ⟨some 3, ⟨none, none, none⟩, 0⟩ 3 liveHandle (by decide) rfl (by decide)
      (by decide) (by decide)

/-- C7 counterexample: with `maxAgeMs = 0`, a live record of age 5 — an age
that exceeds `maxAgeMs` — is NOT removed and the count stays 1: the source
guards the age check behind the truthiness of `maxAgeMs`
(`maxAgeMs && age > maxAgeMs`), so a zero age limit disables the age
criterion instead of pruning every record older than 0 ms as the universally
quantified claim would require. -/
theorem cleanupStaleClients_zero_maxAge :
    assocGet (some "a" : MapKey) (cleanupStaleClients c7st 5 0).clients =
      some ⟨some 1, ⟨none, none, none⟩, 0⟩ ∧
    5 - (0 : Nat) > 0 ∧
    getClientCount (cleanupStaleClients c7st 5 0) = 1 := by decide

/-- C7 (amended): a `cleanupStaleClients` pass removes exactly the stale
records: a registered record is removed iff its response reference is missing
or unknown, reading the response's `writableEnded` field throws (the corrupt
case, handled by the catch branch), the stream has already ended, or — when
`maxAgeMs` is nonzero (truthy; the default is one hour, `defaultMaxAgeMs`) —
its age exceeds `maxAgeMs`.  All other records survive with their entries
intact; the pass is a total function (never raises) and the removal of one
record does not prevent processing of the remaining ones. -/
theorem cleanupStaleClients_spec (st : SSEState) (now maxAgeMs : Nat)
    (hk : KeysNodup st) (hr : ResNodup st) :
    ∀ k e, (k, e) ∈ st.clients →
      assocGet k (cleanupStaleClients st now maxAgeMs).clients =
        (if cleanupCond st now maxAgeMs e then none else some e) := by
  intro k e hm
  have hcur : ∀ p ∈ st.clients, assocGet p.1 st.clients = some p.2 := by
    intro p hp
    exact assocGet_of_mem_nodup hk hp
  exact cleanupGo_spec now maxAgeMs st.clients st hk hcur hr (k, e) hm

/-- Witness for C7: on a mixed registry (a young live record, an ended one,
one without a response reference, a corrupt one, an over-age one), the pass
with `now = 200`, `maxAgeMs = 100` keeps exactly the young live record. -/
theorem cleanupStaleClients_spec_witness :
    assocGet (some "a" : MapKey) (cleanupStaleClients c7mix 200 100).clients =
      some ⟨some 1, ⟨none, none, none⟩, 150⟩ ∧
    assocGet (some "b" : MapKey) (cleanupStaleClients c7mix 200 100).clients = none ∧
    assocGet (some "c" : MapKey) (cleanupStaleClients c7mix 200 100).clients = none ∧
    assocGet (some "d" : MapKey) (cleanupStaleClients c7mix 200 100).clients = none ∧
    assocGet (some "e" : MapKey) (cleanupStaleClients c7mix 200 100).clients = none := by
  have h := cleanupStaleClients_spec c7mix 200 100 (by decide) (by decide)
  refine ⟨?_, ?_, ?_, ?_, ?_⟩
  · have hx := h (some "a") ⟨some 1, ⟨none, none, none⟩, 150⟩ (by decide)
    rw [show cleanupCond c7mix 200 100 ⟨some 1, ⟨none, none, none⟩, 150⟩ = false from
      by decide] at hx
    simpa using hx
  · have hx := h (some "b") ⟨some 2, ⟨none, none, none⟩, 150⟩ (by decide)
    rw [show cleanupCond c7mix 200 100 ⟨some 2, ⟨none, none, none⟩, 150⟩ = true from
      by decide] at hx
    simpa using hx
  · have hx := h (some "c") ⟨none, ⟨none, none, none⟩, 150⟩ (by decide)
    rw [show cleanupCond c7mix 200 100 ⟨none, ⟨none, none, none⟩, 150⟩ = true from
      by decide] at hx
    simpa using hx
  · have hx := h (some "d") ⟨some 4, ⟨none, none, none⟩, 150⟩ (by decide)
    rw [show cleanupCond c7mix 200 100 ⟨some 4, ⟨none, none, none⟩, 150⟩ = true from
      by decide] at hx
    simpa using hx
  · have hx := h (some "e") ⟨some 5, ⟨none, none, none⟩, 0⟩ (by decide)
    rw [show cleanupCond c7mix 200 100 ⟨some 5, ⟨none, none, none⟩, 0⟩ = true from
      by decide] at hx
    simpa using hx

/-- C8: `removeClientById` is idempotent: on an absent id it is a no-op that
returns the state unchanged (and, all throw-sites being caught, never
raises); a second removal of the same id is a no-op; and across two
successive calls the client count decreases by at most 1. -/
theorem removeClientById_idempotent (st : SSEState) (clientId : MapKey)
    (hk : KeysNodup st) :
    (assocGet clientId st.clients = none → removeClientById st clientId = st) ∧
    removeClientById (removeClientById st clientId) clientId =
      removeClientById st clientId ∧
    getClientCount st ≤
      getClientCount (removeClientById (removeClientById st clientId) clientId) + 1 := by
  have habsent : ∀ s : SSEState, assocGet clientId s.clients = none →
      removeClientById s clientId = s := by
    intro s h
    simp [removeClientById, h]
  have hsecond : removeClientById (removeClientById st clientId) clientId =
      removeClientById st clientId :=
    habsent _ (removeClientById_get_self st clientId)
  refine ⟨habsent st, hsecond, ?_⟩
  rw [hsecond]
  rcases hget : assocGet clientId st.clients with _ | e
  · rw [habsent st hget]
    exact Nat.le_succ _
  · have hcl := (guardedEnd_clients st e.res).1
    have hclients : (removeClientById st clientId).clients =
        assocDelete clientId st.clients := by
      rcases hres : e.res with _ | rid <;>
        rw [hres] at hcl <;>
        simp [removeClientById, hget, hres, hcl]
    unfold getClientCount
    rw [hclients]
    exact assocDelete_length clientId hk

/-- Witness for C8: double removal of a registered id on a concrete registry
is a no-op the second time and loses at most one client. -/
theorem removeClientById_idempotent_witness :
    removeClientById (removeClientById c6live (some "c1")) (some "c1") =
      removeClientById c6live (some "c1") ∧
    getClientCount c6live ≤
      getClientCount (removeClientById (removeClientById c6live (some "c1"))
        (some "c1")) + 1 := by
  have h := removeClientById_idempotent c6live (some "c1") (by decide)
  exact ⟨h.2.1, h.2.2⟩

/-- C1: `broadcast(payload)` formats the message once and attempts to write
that identical string to every registered record: every record whose write
succeeds stays registered and its response's log gains exactly one copy of
the formatted message; every record whose write fails is collected and
removed, the removals happening only after the iteration over all records
(`writeOk` is evaluated against the pre-broadcast heap for every record, so a
failure does not disturb the writes of later records).  The embedding is a
total function: every throw-site on this path is inside a `try`/`catch`, so
the call itself never raises. -/
theorem broadcast_effects (st : SSEState) (p : Payload)
    (hkeys : KeysNodup st) (hres : ResNodup st) :
    ∀ k e, (k, e) ∈ st.clients →
      (writeOk st e.res = true →
        assocGet k (broadcast st p).clients = some e ∧
        writtenOf (broadcast st p) e.res =
          writtenOf st e.res ++ [formatSSEMessage p]) ∧
      (writeOk st e.res = false →
        assocGet k (broadcast st p).clients = none) := by
  intro k e hm
  constructor
  · intro hok
    have hknot : k ∉ (broadcastWrites st (formatSSEMessage p) st.clients).2 := by
      intro hk
      rcases broadcastWrites_mem_fail (formatSSEMessage p) st.clients st k hk with
        ⟨e2, hm2, hf2⟩
      have h1 : assocGet k st.clients = some e := assocGet_of_mem_nodup hkeys hm
      have h2 : assocGet k st.clients = some e2 := assocGet_of_mem_nodup hkeys hm2
      rw [h1] at h2
      injection h2 with h3
      rw [← h3] at hf2
      rw [hok] at hf2
      exact Bool.noConfusion hf2
    constructor
    · simp only [broadcast]
      rw [foldl_removeById_get_not_mem _ _ hknot,
          (broadcastWrites_clients (formatSSEMessage p) st.clients st).1,
          assocGet_of_mem_nodup hkeys hm]
    · simp only [broadcast]
      rw [foldl_removeById_writtenOf,
          broadcastWrites_writtenOf_self (formatSSEMessage p) st.clients st k e hres hm hok]
  · intro hfail
    simp only [broadcast]
    exact foldl_removeById_get_mem _ _
      (broadcastWrites_fail_mem (formatSSEMessage p) st.clients st k e hm hfail)

/-- Witness for C1 (the P6 scenario): two registered clients, response 1
healthy and response 2 throwing on write; after `broadcast` the first entry
is still registered and its response received exactly the one formatted
message, and the failing entry is removed. -/
theorem broadcast_effects_witness :
    assocGet (some "a" : MapKey)
      (broadcast c1st (Payload.serializable "1")).clients = some c1entryA ∧
    writtenOf (broadcast c1st (Payload.serializable "1")) (some 1) = ["data: 1\n\n"] ∧
    assocGet (some "b" : MapKey)
      (broadcast c1st (Payload.serializable "1")).clients = none := by
  have h := broadcast_effects c1st (Payload.serializable "1") (by decide) (by decide)
  have ha := (h (some "a") c1entryA (by decide)).1 (by decide)
  have hb := (h (some "b") c1entryB (by decide)).2 (by decide)
  refine ⟨ha.1, ?_, hb⟩
  have h2 : writtenOf (broadcast c1st (Payload.serializable "1")) (some 1) =
      writtenOf c1st (some 1) ++ [formatSSEMessage (Payload.serializable "1")] := ha.2
  rw [h2]
  decide

end SSE
